import Mathlib

/-!
Verification development for the trust-score estimator of the `dnn-trust`
repository.  The estimator itself (`notebooks/trustscore.py`) is not part of
the provided sources — only its callers (`run.py`, `notebooks/utils.py`) are —
so the estimator is modelled from the specification (`spec.md`, sections 3–4,
7–8): per-class nearest-neighbour indices over rational-valued embeddings,
Euclidean distance modelled by its square (an order-preserving change that
keeps the model exact over `ℚ`), and the trust ratio `d_other / (d_same + ε)`.
The dataset-loading function of `run.py` is embedded directly from the source.
-/

/-- Squared Euclidean distance between two embedding vectors, componentwise
over the zipped coordinates.  The square of the metric is used so the model
stays inside `ℚ`; it induces the same nearest-neighbour order. -/
def sqDist (x y : List ℚ) : ℚ :=
  ((x.zip y).map (fun p => (p.1 - p.2) * (p.1 - p.2))).sum

/-- Fold selecting the element of minimal `dist`, keeping the earliest element
on ties (strict comparison only replaces the accumulator). -/
def pickMinKey (dist : α → ℚ) (a : α) (l : List α) : α :=
  l.foldl (fun best c => if dist c < dist best then c else best) a

/-- Minimal element of a list under `dist`, earliest on ties; `none` on the
empty list. -/
def pickMinFrom (dist : α → ℚ) : List α → Option α
  | [] => none
  | a :: l => some (pickMinKey dist a l)

/-- Indexed distances from a query to every point of a class. -/
def distPairs (q : List ℚ) (pts : List (List ℚ)) : List (Nat × ℚ) :=
  (List.range pts.length).map (fun i => (i, sqDist q (pts.getD i [])))

/-- Nearest point of `pts` to `q`: its position in the class and its (squared)
distance; the lowest position wins ties.  `none` iff the class is empty. -/
def nearestIn (q : List ℚ) (pts : List (List ℚ)) : Option (Nat × ℚ) :=
  pickMinFrom (fun pr => pr.2) (distPairs q pts)

/-- Sort key on `(position, kth-neighbour distance)` pairs: by distance first,
then by position, so equidistant points keep a deterministic order. -/
def leDP (a b : Nat × ℚ) : Bool :=
  decide (a.2 < b.2 ∨ (a.2 = b.2 ∧ a.1 ≤ b.1))

/-- Index/distance pairs for the points of a class, sorted by distance to the
query (ties by position).  Used for the k-th-neighbour query of `score`. -/
def sortPairs (q : List ℚ) (pts : List (List ℚ)) : List (Nat × ℚ) :=
  (distPairs q pts).mergeSort leDP

/-- Modelled from the spec: the k-th nearest neighbour of `q` within a class
(`spec.md` §4.1 step 1; `notebooks/trustscore.py` is absent from the sources).
With `k ≤ 1` this is the nearest neighbour; larger `k` indexes the distance
ranking, clamped to the class size.  Returns the neighbour's position in the
class together with its (squared) distance. -/
def kthNearest (q : List ℚ) (pts : List (List ℚ)) (k : Nat) : Option (Nat × ℚ) :=
  if pts = [] then none
  else if k ≤ 1 then nearestIn q pts
  else some ((sortPairs q pts).getD (min (k - 1) ((sortPairs q pts).length - 1)) (0, 0))

/-- Per-class nearest-neighbour index: the class label and the retained
(possibly filtered) reference points of that class (`spec.md` §3,
"ClassIndex"). -/
structure ClassIndex where
  label : Nat
  points : List (List ℚ)
deriving DecidableEq, Repr

/-- Fitted estimator state: the embedding dimension and one `ClassIndex` per
expected class label (`spec.md` §3, "Fitted Estimator State"). -/
structure FittedState where
  dim : Nat
  indices : List ClassIndex
deriving DecidableEq, Repr

/-- Filtering mode recognised by the estimator (`spec.md` §4.1,
"Configuration"): no filtering, density filtering, or agreement with an
auxiliary classifier. -/
inductive FilterMode where
  | nofilter : FilterMode
  | density : FilterMode
  | uncertainty : FilterMode
deriving DecidableEq, Repr

/-- Estimator configuration: neighbour count `k`, discard fraction `alpha`
(`0` disables filtering), and the filtering mode. -/
structure TrustConfig where
  k : Nat
  alpha : ℚ
  filtering : FilterMode
deriving DecidableEq, Repr

/-- Error taxonomy of the estimator (`spec.md` §7), plus `noOtherClass` for a
query whose fitted state holds no non-empty index of a different class (a case
the spec leaves unspecified; the model refuses rather than defaulting). -/
inductive TSError where
  | invalidInput : TSError
  | unfittedEstimator : TSError
  | unknownLabel : TSError
  | dimensionMismatch : TSError
  | noOtherClass : TSError
deriving DecidableEq, Repr

/-- Numerical-stability constant of the trust ratio (`spec.md` §4.1 step 3). -/
def eps : ℚ := 1 / 1000000000000

/-- Positions (starting at `i`) of the entries of a label list equal to `c`. -/
def idxOf (c : Nat) : Nat → List Nat → List Nat
  | _, [] => []
  | i, l :: ls => if l = c then i :: idxOf c (i + 1) ls else idxOf c (i + 1) ls

/-- Positions of the training points whose label is `c`. -/
def classMembers (labels : List Nat) (c : Nat) : List Nat :=
  idxOf c 0 labels

/-- Embeddings of the training points whose label is `c`, in input order. -/
def classPoints (emb : List (List ℚ)) (labels : List Nat) (c : Nat) : List (List ℚ) :=
  (classMembers labels c).map (fun i => emb.getD i [])

/-- Number of points discarded by filtering: the `alpha` fraction of `n`,
rounded down (`spec.md` §4.1, "discard the bottom `alpha` fraction"). -/
def discardCount (alpha : ℚ) (n : Nat) : Nat :=
  ((alpha.num * n) / (alpha.den : Int)).toNat

/-- Number of points a class of size `n` keeps after filtering. -/
def keepCount (alpha : ℚ) (n : Nat) : Nat :=
  n - discardCount alpha n

/-- Distance from point `i` of a class to its k-th nearest neighbour among the
other points of the same class (clamped to the class size). -/
def kthSelfDist (k : Nat) (pts : List (List ℚ)) (i : Nat) : ℚ :=
  let ds := (((List.range pts.length).filter (fun j => j ≠ i)).map
    (fun j => sqDist (pts.getD i []) (pts.getD j []))).mergeSort (fun a b => decide (a ≤ b))
  ds.getD (min (k - 1) (ds.length - 1)) 0

/-- Each class position paired with its k-th same-class neighbour distance. -/
def densityPairs (k : Nat) (pts : List (List ℚ)) : List (Nat × ℚ) :=
  (List.range pts.length).map (fun i => (i, kthSelfDist k pts i))

/-- Density pairs of a class sorted by k-th-neighbour distance (most central
first, ties by position). -/
def sortedDensityPairs (k : Nat) (pts : List (List ℚ)) : List (Nat × ℚ) :=
  (densityPairs k pts).mergeSort leDP

/-- Modelled from the spec: density filtering (`spec.md` §4.1, "Effect";
`notebooks/trustscore.py` is absent from the sources).  Keeps the
`n - ⌊alpha·n⌋` points whose k-th same-class neighbour distance is smallest,
discarding the least dense remainder. -/
def densityFilter (k : Nat) (alpha : ℚ) (pts : List (List ℚ)) : List (List ℚ) :=
  ((sortedDensityPairs k pts).take (keepCount alpha pts.length)).map
    (fun pr => pts.getD pr.1 [])

/-- Modelled from the spec: the reference points a class keeps after the
configured filtering (`spec.md` §4.1).  `alpha = 0` disables filtering;
`uncertainty` keeps the points whose auxiliary prediction agrees with their
label (a missing auxiliary entry counts as agreement). -/
def buildClassPoints (cfg : TrustConfig) (aux : List Nat) (emb : List (List ℚ))
    (labels : List Nat) (c : Nat) : List (List ℚ) :=
  if cfg.alpha = 0 then classPoints emb labels c
  else
    match cfg.filtering with
    | FilterMode.nofilter => classPoints emb labels c
    | FilterMode.uncertainty =>
        ((classMembers labels c).filter
          (fun i => aux.getD i (labels.getD i 0) == c)).map (fun i => emb.getD i [])
    | FilterMode.density => densityFilter cfg.k cfg.alpha (classPoints emb labels c)

/-- Largest label occurring in a label list (`0` when empty). -/
def maxLabel (labels : List Nat) : Nat :=
  labels.foldr max 0

/-- Class labels the fitted state is expected to index: `0..n-1` when an
explicit class count is supplied, otherwise the distinct observed labels in
ascending order (`spec.md` §4.1, `classes` defaulting). -/
def expectedLabels (labels : List Nat) (classes : Option Nat) : List Nat :=
  match classes with
  | some n => List.range n
  | none => (List.range (maxLabel labels + 1)).filter (fun c => labels.contains c)

/-- Embedding dimension of a training set: the width of its first vector. -/
def fitDim (emb : List (List ℚ)) : Nat :=
  (emb.headD []).length

/-- Modelled from the spec: `fit(embeddings, labels, classes)` (`spec.md`
§4.1; `notebooks/trustscore.py` is absent from the sources).  Checks the
length and dimension constraints, builds one filtered `ClassIndex` per
expected class, and fails with `invalidInput` when a class ends up empty. -/
def fitE (cfg : TrustConfig) (aux : List Nat) (emb : List (List ℚ))
    (labels : List Nat) (classes : Option Nat) : Except TSError FittedState :=
  if labels.length = emb.length ∧ (∀ e ∈ emb, e.length = fitDim emb) then
    let idx := (expectedLabels labels classes).map
      (fun c => ClassIndex.mk c (buildClassPoints cfg aux emb labels c))
    if ∃ ci ∈ idx, ci.points = [] then Except.error TSError.invalidInput
    else Except.ok (FittedState.mk (fitDim emb) idx)
  else Except.error TSError.invalidInput

/-- Fitted class index for a predicted label, if any. -/
def lookupClass (indices : List ClassIndex) (p : Nat) : Option ClassIndex :=
  indices.find? (fun ci => ci.label == p)

/-- Candidate per class with a label other than the predicted one: its label,
the position of its nearest point to the query, and that distance.  Classes
with empty indices contribute nothing. -/
def otherCands (q : List ℚ) (p : Nat) (indices : List ClassIndex) :
    List (Nat × Nat × ℚ) :=
  indices.filterMap (fun ci =>
    if ci.label = p then none
    else (nearestIn q ci.points).map (fun pr => (ci.label, pr.1, pr.2)))

/-- Modelled from the spec: the argmin over other classes (`spec.md` §4.1
step 2 and the tie-break policy).  The minimal nearest distance wins; on ties
the earliest candidate — the lowest label, since candidates are listed in
label order — is kept. -/
def otherArgmin (q : List ℚ) (p : Nat) (indices : List ClassIndex) :
    Option (Nat × Nat × ℚ) :=
  pickMinFrom (fun t => t.2.2) (otherCands q p indices)

/-- Result of `score` for one query point: the trust score, `d_other`, the
argmin label `c*`, the position of the `d_same` neighbour in its class, and
the position of the `d_other` neighbour in class `c*` (`spec.md` §3,
"Query Result"). -/
structure PointOut where
  trust : ℚ
  dOther : ℚ
  cstar : Nat
  sameIdx : Nat
  otherIdx : Nat
deriving DecidableEq, Repr

/-- Modelled from the spec: the per-query computation of `score` (`spec.md`
§4.1 steps 1–3; `notebooks/trustscore.py` is absent from the sources). -/
def scorePoint (st : FittedState) (q : List ℚ) (p : Nat) (k : Nat) :
    Except TSError PointOut :=
  match lookupClass st.indices p with
  | none => Except.error TSError.unknownLabel
  | some ci =>
    match kthNearest q ci.points k with
    | none => Except.error TSError.unknownLabel
    | some sameNb =>
      match otherArgmin q p st.indices with
      | none => Except.error TSError.noOtherClass
      | some best =>
        Except.ok (PointOut.mk (best.2.2 / (sameNb.2 + eps)) best.2.2 best.1
          sameNb.1 best.2.1)

/-- Same-class k-th-neighbour distance `d_same` of a query, as `score`
computes it (`0` when the lookup fails — those cases error out anyway). -/
def dSameOf (st : FittedState) (q : List ℚ) (p : Nat) (k : Nat) : ℚ :=
  match lookupClass st.indices p with
  | none => 0
  | some ci =>
    match kthNearest q ci.points k with
    | none => 0
    | some sameNb => sameNb.2

/-- Sequential short-circuiting map over `Except`: the first failing element
aborts the whole computation. -/
def exceptMapList (f : α → Except TSError β) : List α → Except TSError (List β)
  | [] => Except.ok []
  | a :: l =>
    match f a, exceptMapList f l with
    | Except.ok b, Except.ok bs => Except.ok (b :: bs)
    | Except.error e, _ => Except.error e
    | Except.ok _, Except.error e => Except.error e

/-- Result of `score` over a batch: five parallel sequences, one entry per
query point (`spec.md` §4.1, "Result"). -/
structure ScoreResult where
  trustScores : List ℚ
  dOthers : List ℚ
  cStars : List Nat
  sameIdxs : List Nat
  otherIdxs : List Nat
deriving DecidableEq, Repr

/-- Packs the per-point outputs into the five parallel result sequences. -/
def mkResult (outs : List PointOut) : ScoreResult :=
  ScoreResult.mk (outs.map (fun o => o.trust)) (outs.map (fun o => o.dOther))
    (outs.map (fun o => o.cstar)) (outs.map (fun o => o.sameIdx))
    (outs.map (fun o => o.otherIdx))

/-- Modelled from the spec: `score(query_embeddings, predicted_labels, k)`
(`spec.md` §4.1; `notebooks/trustscore.py` is absent from the sources).
Fails with `unfittedEstimator` before any fit, `dimensionMismatch` on a query
of the wrong width, and `unknownLabel` on a predicted label without a fitted
class index; otherwise scores every query point. -/
def scoreE (fitted : Option FittedState) (qs : List (List ℚ)) (ps : List Nat)
    (k : Nat) : Except TSError ScoreResult :=
  match fitted with
  | none => Except.error TSError.unfittedEstimator
  | some st =>
    if ∀ q ∈ qs, q.length = st.dim then
      if ∀ p ∈ ps, (lookupClass st.indices p).isSome then
        match exceptMapList (fun qp => scorePoint st qp.1 qp.2 k) (qs.zip ps) with
        | Except.ok outs => Except.ok (mkResult outs)
        | Except.error e => Except.error e
      else Except.error TSError.unknownLabel
    else Except.error TSError.dimensionMismatch

/-- The estimator object: its configuration and the current fitted state
(`none` before the first successful fit). -/
structure TrustEstimator where
  cfg : TrustConfig
  fitted : Option FittedState
deriving DecidableEq, Repr

/-- Modelled from the spec: the state transition of a `fit` call (`spec.md`
§4.1 "Result" and §7): on success the prior fitted state is replaced whole;
on failure the estimator is returned untouched alongside the error. -/
def fitRun (est : TrustEstimator) (aux : List Nat) (emb : List (List ℚ))
    (labels : List Nat) (classes : Option Nat) : TrustEstimator × Option TSError :=
  match fitE est.cfg aux emb labels classes with
  | Except.ok st => (TrustEstimator.mk est.cfg (some st), none)
  | Except.error e => (est, some e)

/-- Modelled from the spec: a `score` call as the caller observes it
(`spec.md` §4.1, "No side effects"): the result together with the estimator
after the call. -/
def scoreRun (est : TrustEstimator) (qs : List (List ℚ)) (ps : List Nat) (k : Nat) :
    Except TSError ScoreResult × TrustEstimator :=
  (scoreE est.fitted qs ps k, est)

/-- Python exception kind raised by an attribute access that fails. -/
inductive PyExc where
  | attributeError : PyExc
deriving DecidableEq, Repr

/-- Dataset-loading attributes exposed by the external
`tf.keras.datasets.mnist` module: its API has `load_data` and nothing named
`load_dta`. -/
def mnistAttrs : List String := [("load_data")]

/-- Python attribute lookup on the mnist module: returns the attribute when it
exists and raises `AttributeError` otherwise. -/
def mnistGetattr (name : String) : Except PyExc String :=
  if name ∈ mnistAttrs then Except.ok name else Except.error PyExc.attributeError

/-- Embedded from `run.py` lines 53–60: the body of `load_data` first calls
`tf.keras.datasets.mnist.load_dta()`; only if that lookup succeeded would the
normalisation and PCA steps (external collaborators, abstracted to `Unit`)
run. -/
def run_load_data : Except PyExc Unit := do
  let _ ← mnistGetattr ("load_dta")
  pure ()

/-- Embedded from `run.py` line 78: the module-level duplicate of the loading
code calls the existing `load_data` attribute instead. -/
def moduleLevelLoad : Except PyExc String :=
  mnistGetattr ("load_data")

theorem sqDist_nonneg (x y : List ℚ) : 0 ≤ sqDist x y := by
  refine List.sum_nonneg ?_
  intro a ha
  rcases List.mem_map.mp ha with ⟨p, _, rfl⟩
  exact mul_self_nonneg _

theorem sqDist_self (x : List ℚ) : sqDist x x = 0 := by
  induction x with
  | nil => rfl
  | cons a t ih =>
    simp only [sqDist, List.zip_cons_cons, List.map_cons, List.sum_cons] at *
    rw [ih]
    ring

theorem pickMinKey_spec (dist : α → ℚ) (key : α → Nat) :
    ∀ (l : List α) (a : α), (a :: l).Pairwise (fun x y => key x < key y) →
      pickMinKey dist a l ∈ a :: l ∧
      (∀ c ∈ a :: l, dist (pickMinKey dist a l) ≤ dist c) ∧
      (∀ c ∈ a :: l, dist c = dist (pickMinKey dist a l) →
        key (pickMinKey dist a l) ≤ key c) := by
  intro l
  induction l with
  | nil =>
    intro a _
    refine ⟨by simp [pickMinKey], ?_, ?_⟩
    · intro c hc
      simp only [List.mem_singleton] at hc
      subst hc
      exact le_rfl
    · intro c hc _
      simp only [List.mem_singleton] at hc
      subst hc
      exact le_rfl
  | cons c l ih =>
    intro a hp
    have hstep : pickMinKey dist a (c :: l) =
        pickMinKey dist (if dist c < dist a then c else a) l := by
      simp [pickMinKey, List.foldl_cons]
    rw [List.pairwise_cons] at hp
    obtain ⟨ha, hp⟩ := hp
    rw [List.pairwise_cons] at hp
    obtain ⟨hc, hl⟩ := hp
    have hac : key a < key c := ha c (List.mem_cons_self c l)
    have hal : ∀ x ∈ l, key a < key x := fun x hx => ha x (List.mem_cons_of_mem c hx)
    have hb : ((if dist c < dist a then c else a) :: l).Pairwise
        (fun x y => key x < key y) := by
      rw [List.pairwise_cons]
      refine ⟨?_, hl⟩
      intro x hx
      by_cases h : dist c < dist a
      · simpa [h] using hc x hx
      · simpa [h] using hal x hx
    obtain ⟨ihmem, ihle, ihtie⟩ := ih (if dist c < dist a then c else a) hb
    rw [hstep]
    set b := if dist c < dist a then c else a with hbdef
    set r := pickMinKey dist b l with hrdef
    have hrb : dist r ≤ dist b := ihle b (List.mem_cons_self b l)
    have hba : dist b ≤ dist a := by
      by_cases h : dist c < dist a
      · rw [hbdef, if_pos h]; exact le_of_lt h
      · rw [hbdef, if_neg h]
    have hbc : dist b ≤ dist c := by
      by_cases h : dist c < dist a
      · rw [hbdef, if_pos h]
      · rw [hbdef, if_neg h]; exact le_of_not_lt h
    refine ⟨?_, ?_, ?_⟩
    · rcases List.mem_cons.mp ihmem with h | h
      · by_cases hlt : dist c < dist a
        · rw [h, hbdef, if_pos hlt]
          exact List.mem_cons_of_mem a (List.mem_cons_self c l)
        · rw [h, hbdef, if_neg hlt]
          exact List.mem_cons_self a (c :: l)
      · exact List.mem_cons_of_mem a (List.mem_cons_of_mem c h)
    · intro x hx
      rcases List.mem_cons.mp hx with h | h
      · subst h; exact le_trans hrb hba
      rcases List.mem_cons.mp h with h | h
      · subst h; exact le_trans hrb hbc
      · exact ihle x (List.mem_cons_of_mem b h)
    · intro x hx hdx
      rcases List.mem_cons.mp hx with h | h
      · subst h
        by_cases hlt : dist c < dist x
        · exfalso
          have h1 : dist r ≤ dist c := by
            rw [hbdef, if_pos hlt] at hrb; exact hrb
          have h2 : dist r < dist x := lt_of_le_of_lt h1 hlt
          rw [hdx] at h2
          exact lt_irrefl _ h2
        · have hxb : dist b = dist r := by
            rw [hbdef, if_neg hlt]; exact hdx
          have hkb := ihtie b (List.mem_cons_self b l) hxb
          calc key r ≤ key b := hkb
          _ = key x := by rw [hbdef, if_neg hlt]
      rcases List.mem_cons.mp h with h | h
      · subst h
        by_cases hlt : dist x < dist a
        · have hxb : dist b = dist r := by
            rw [hbdef, if_pos hlt]; exact hdx
          have hkb := ihtie b (List.mem_cons_self b l) hxb
          calc key r ≤ key b := hkb
          _ = key x := by rw [hbdef, if_pos hlt]
        · have hxb : dist b = dist r := by
            have h1 : dist b ≤ dist x := by
              rw [hbdef, if_neg hlt]; exact le_of_not_lt hlt
            rw [hdx] at h1
            exact le_antisymm h1 hrb
          have hkb := ihtie b (List.mem_cons_self b l) hxb
          have hbx : key b < key x := by
            rw [hbdef, if_neg hlt]; exact hac
          exact le_of_lt (lt_of_le_of_lt hkb hbx)
      · exact ihtie x (List.mem_cons_of_mem b h) hdx

theorem pickMinFrom_spec (dist : α → ℚ) (key : α → Nat) (l : List α) (r : α)
    (hp : l.Pairwise (fun x y => key x < key y))
    (h : pickMinFrom dist l = some r) :
    r ∈ l ∧ (∀ c ∈ l, dist r ≤ dist c) ∧
      (∀ c ∈ l, dist c = dist r → key r ≤ key c) := by
  cases l with
  | nil => cases h
  | cons a l =>
    have hr : r = pickMinKey dist a l := by
      simpa [pickMinFrom] using h.symm
    subst hr
    exact pickMinKey_spec dist key l a hp

theorem distPairs_pairwise (q : List ℚ) (pts : List (List ℚ)) :
    (distPairs q pts).Pairwise (fun x y => x.1 < y.1) := by
  rw [distPairs, List.pairwise_map]
  exact List.pairwise_lt_range _

theorem nearestIn_spec (q : List ℚ) (pts : List (List ℚ)) (j : Nat) (d : ℚ)
    (h : nearestIn q pts = some (j, d)) :
    j < pts.length ∧ d = sqDist q (pts.getD j []) ∧
      (∀ m, m < pts.length → d ≤ sqDist q (pts.getD m [])) ∧
      (∀ m, m < pts.length → sqDist q (pts.getD m []) = d → j ≤ m) := by
  rw [nearestIn] at h
  obtain ⟨hmem, hle, htie⟩ :=
    pickMinFrom_spec (fun pr => pr.2) (fun pr => pr.1) (distPairs q pts) (j, d)
      (distPairs_pairwise q pts) h
  rcases List.mem_map.mp hmem with ⟨i, hi, heq⟩
  have h1 : i = j := congrArg Prod.fst heq
  have h2 : sqDist q (pts.getD i []) = d := congrArg Prod.snd heq
  subst h1
  refine ⟨List.mem_range.mp hi, h2.symm, ?_, ?_⟩
  · intro m hm
    exact hle (m, sqDist q (pts.getD m []))
      (List.mem_map.mpr ⟨m, List.mem_range.mpr hm, rfl⟩)
  · intro m hm hdm
    exact htie (m, sqDist q (pts.getD m []))
      (List.mem_map.mpr ⟨m, List.mem_range.mpr hm, rfl⟩) hdm

theorem nearestIn_isSome (q : List ℚ) (pts : List (List ℚ)) (hne : pts ≠ []) :
    ∃ pr, nearestIn q pts = some pr := by
  have hlen : pts.length ≠ 0 := fun h => hne (List.length_eq_zero.mp h)
  rw [nearestIn, distPairs]
  cases hr : List.range pts.length with
  | nil =>
    exact absurd (by simpa using congrArg List.length hr) hlen
  | cons a l =>
    exact ⟨_, rfl⟩

theorem exceptMapList_length (f : α → Except TSError β) (l : List α)
    (out : List β) (h : exceptMapList f l = Except.ok out) :
    out.length = l.length := by
  induction l generalizing out with
  | nil =>
    simp only [exceptMapList] at h
    cases h
    rfl
  | cons a l ih =>
    simp only [exceptMapList] at h
    cases hfa : f a with
    | error e => rw [hfa] at h; simp at h
    | ok b =>
      cases hrest : exceptMapList f l with
      | error e => rw [hfa, hrest] at h; simp at h
      | ok bs =>
        rw [hfa, hrest] at h
        cases h
        simp [ih bs hrest]

theorem idxOf_length (c : Nat) (i : Nat) (ls : List Nat) :
    (idxOf c i ls).length = ls.count c := by
  induction ls generalizing i with
  | nil => rfl
  | cons l ls ih =>
    by_cases h : l = c
    · simp [idxOf, h, ih, List.count_cons]
    · have h' : ¬ (c = l) := fun hh => h hh.symm
      simp [idxOf, h, ih, List.count_cons, h']

/-- C10: every call to the `load_data` function defined in `run.py` raises an
`AttributeError` and never returns, because its first statement invokes
`tf.keras.datasets.mnist.load_dta()`, an attribute that does not exist, while
the working module-level duplicate uses `load_data()`. -/
theorem run_load_data_attribute_error :
    run_load_data = Except.error PyExc.attributeError ∧
    (∀ u, run_load_data ≠ Except.ok u) ∧
    moduleLevelLoad = Except.ok ("load_data") := by
  refine ⟨rfl, ?_, rfl⟩
  intro u hu
  rw [show run_load_data = Except.error PyExc.attributeError from rfl] at hu
  cases hu

/-- C9: `score` is deterministic and side-effect free — two invocations with
identical fitted state and identical query input (query embeddings, predicted
labels, and `k`) return identical results in all output sequences, and the
estimator's fitted state is unchanged by the call. -/
theorem score_deterministic_pure (est est' : TrustEstimator)
    (qs qs' : List (List ℚ)) (ps ps' : List Nat) (k k' : Nat)
    (h1 : est = est') (h2 : qs = qs') (h3 : ps = ps') (h4 : k = k') :
    (scoreRun est qs ps k).1 = (scoreRun est' qs' ps' k').1 ∧
    (scoreRun est qs ps k).2 = est := by
  subst h1
  subst h2
  subst h3
  subst h4
  exact ⟨rfl, rfl⟩

theorem score_deterministic_pure_inst :
    (scoreRun (TrustEstimator.mk (TrustConfig.mk 1 0 FilterMode.nofilter) none)
        [[0]] [0] 1).1 =
      (scoreRun (TrustEstimator.mk (TrustConfig.mk 1 0 FilterMode.nofilter) none)
        [[0]] [0] 1).1 ∧
    (scoreRun (TrustEstimator.mk (TrustConfig.mk 1 0 FilterMode.nofilter) none)
        [[0]] [0] 1).2 =
      TrustEstimator.mk (TrustConfig.mk 1 0 FilterMode.nofilter) none :=
  score_deterministic_pure _ _ _ _ _ _ _ _ rfl rfl rfl rfl

/-- C6: `fit` is atomic with respect to the fitted state — it either fully
succeeds and replaces the prior fitted state, or fails with a synchronous
error and leaves the estimator completely unchanged; the call's outcome is
exactly one of the two, so no partially-fitted state is observable. -/
theorem fit_atomic_state (est : TrustEstimator) (aux : List Nat)
    (emb : List (List ℚ)) (labels : List Nat) (classes : Option Nat) :
    (∀ e, (fitRun est aux emb labels classes).2 = some e →
      (fitRun est aux emb labels classes).1 = est) ∧
    (∀ st, fitE est.cfg aux emb labels classes = Except.ok st →
      (fitRun est aux emb labels classes).1 =
        TrustEstimator.mk est.cfg (some st)) ∧
    ((fitRun est aux emb labels classes).2 = none ↔
      ∃ st, fitE est.cfg aux emb labels classes = Except.ok st) := by
  cases h : fitE est.cfg aux emb labels classes with
  | ok st => simp [fitRun, h]
  | error e => simp [fitRun, h]

theorem fit_atomic_state_inst :
    (fitRun (TrustEstimator.mk (TrustConfig.mk 1 0 FilterMode.nofilter)
        (some (FittedState.mk 1 [ClassIndex.mk 0 [[0]]])))
      [] [[0]] [] none).1 =
    TrustEstimator.mk (TrustConfig.mk 1 0 FilterMode.nofilter)
      (some (FittedState.mk 1 [ClassIndex.mk 0 [[0]]])) :=
  (fit_atomic_state _ [] [[0]] [] none).1 TSError.invalidInput rfl

/-- C5: `score` fails with `UnfittedEstimatorError` whenever it is called
before any successful fit, with `DimensionMismatchError` whenever some query
embedding's width differs from the fitted dimension, and with
`UnknownLabelError` whenever (dimensions being fine) some predicted label has
no fitted class index; in all of these cases it never returns a result. -/
theorem score_error_taxonomy (fitted : Option FittedState)
    (qs : List (List ℚ)) (ps : List Nat) (k : Nat) :
    (fitted = none →
      scoreE fitted qs ps k = Except.error TSError.unfittedEstimator) ∧
    (∀ st, fitted = some st → (∃ q ∈ qs, q.length ≠ st.dim) →
      scoreE fitted qs ps k = Except.error TSError.dimensionMismatch) ∧
    (∀ st, fitted = some st → (∀ q ∈ qs, q.length = st.dim) →
      (∃ p ∈ ps, lookupClass st.indices p = none) →
      scoreE fitted qs ps k = Except.error TSError.unknownLabel) ∧
    ((fitted = none ∨ ∃ st, fitted = some st ∧
        ((∃ q ∈ qs, q.length ≠ st.dim) ∨ ∃ p ∈ ps, lookupClass st.indices p = none)) →
      ∀ r, scoreE fitted qs ps k ≠ Except.ok r) := by
  have hdim : ∀ st, fitted = some st → (∃ q ∈ qs, q.length ≠ st.dim) →
      scoreE fitted qs ps k = Except.error TSError.dimensionMismatch := by
    intro st hst ⟨q, hq, hne⟩
    subst hst
    rw [scoreE, if_neg]
    intro hall
    exact hne (hall q hq)
  have hunk : ∀ st, fitted = some st → (∀ q ∈ qs, q.length = st.dim) →
      (∃ p ∈ ps, lookupClass st.indices p = none) →
      scoreE fitted qs ps k = Except.error TSError.unknownLabel := by
    intro st hst hall ⟨p, hp, hnone⟩
    subst hst
    rw [scoreE, if_pos hall, if_neg]
    intro hps
    have := hps p hp
    rw [hnone] at this
    cases this
  refine ⟨?_, hdim, hunk, ?_⟩
  · intro h
    subst h
    rfl
  · rintro (h | ⟨st, hst, hbad | hbad⟩) r
    · subst h
      intro hcontra
      cases hcontra
    · rw [hdim st hst hbad]
      intro hcontra
      cases hcontra
    · by_cases hall : ∀ q ∈ qs, q.length = st.dim
      · rw [hunk st hst hall hbad]
        intro hcontra
        cases hcontra
      · have : ∃ q ∈ qs, q.length ≠ st.dim := by
          push_neg at hall
          exact hall
        rw [hdim st hst this]
        intro hcontra
        cases hcontra

theorem score_error_taxonomy_inst :
    scoreE none [[0]] [0] 1 = Except.error TSError.unfittedEstimator ∧
    scoreE (some (FittedState.mk 1 [ClassIndex.mk 0 [[0]]])) [[0, 1]] [0] 1 =
      Except.error TSError.dimensionMismatch ∧
    scoreE (some (FittedState.mk 1 [ClassIndex.mk 0 [[0]]])) [[0]] [5] 1 =
      Except.error TSError.unknownLabel :=
  ⟨(score_error_taxonomy none [[0]] [0] 1).1 rfl,
   (score_error_taxonomy _ [[0, 1]] [0] 1).2.1 _ rfl
     ⟨[0, 1], by simp, by simp⟩,
   (score_error_taxonomy _ [[0]] [5] 1).2.2.1 _ rfl
     (by intro q hq; simp at hq; simp [hq]) ⟨5, by simp, rfl⟩⟩

/-- C4: `fit` fails with `InvalidInputError` exactly when some expected class
ends up with zero points after filtering, or the embedding dimensions are
inconsistent, or the labels length differs from the embeddings length; in
particular any embeddings of length 5 paired with labels of length 4 make
`fit` fail this way. -/
theorem fit_invalid_input_iff (cfg : TrustConfig) (aux : List Nat)
    (emb : List (List ℚ)) (labels : List Nat) (classes : Option Nat) :
    (fitE cfg aux emb labels classes = Except.error TSError.invalidInput ↔
      labels.length ≠ emb.length ∨ (∃ e ∈ emb, e.length ≠ fitDim emb) ∨
      ∃ c ∈ expectedLabels labels classes,
        buildClassPoints cfg aux emb labels c = []) ∧
    (emb.length = 5 → labels.length = 4 →
      fitE cfg aux emb labels classes = Except.error TSError.invalidInput) := by
  constructor
  · rw [fitE]
    by_cases h1 : labels.length = emb.length ∧ (∀ e ∈ emb, e.length = fitDim emb)
    · rw [if_pos h1]
      by_cases h2 : ∃ ci ∈ (expectedLabels labels classes).map
          (fun c => ClassIndex.mk c (buildClassPoints cfg aux emb labels c)),
          ci.points = []
      · rw [if_pos h2]
        constructor
        · intro _
          right; right
          rcases h2 with ⟨ci, hmem, hnil⟩
          rcases List.mem_map.mp hmem with ⟨cc, hcc, rfl⟩
          exact ⟨cc, hcc, hnil⟩
        · intro _
          rfl
      · rw [if_neg h2]
        constructor
        · intro h
          cases h
        · rintro (h | h | ⟨cc, hcc, hnil⟩)
          · exact absurd h1.1 h
          · rcases h with ⟨e, he, hne⟩
            exact absurd (h1.2 e he) hne
          · exact absurd ⟨ClassIndex.mk cc (buildClassPoints cfg aux emb labels cc),
              List.mem_map.mpr ⟨cc, hcc, rfl⟩, hnil⟩ h2
    · rw [if_neg h1]
      constructor
      · intro _
        by_cases hl : labels.length = emb.length
        · right; left
          by_contra hcon
          push_neg at hcon
          exact h1 ⟨hl, hcon⟩
        · exact Or.inl hl
      · intro _
        rfl
  · intro h5 h4
    rw [fitE, if_neg]
    rintro ⟨hlen, -⟩
    rw [h4, h5] at hlen
    cases hlen

theorem fit_invalid_input_iff_inst :
    fitE (TrustConfig.mk 1 0 FilterMode.nofilter) []
      [[0], [1], [2], [3], [4]] [0, 1, 0, 1] none =
      Except.error TSError.invalidInput :=
  (fit_invalid_input_iff _ _ _ _ _).2 rfl rfl

theorem sqDist_single (a b : ℚ) : sqDist [a] [b] = (a - b) * (a - b) := by
  simp [sqDist]

theorem nearestIn_single (q p : List ℚ) :
    nearestIn q [p] = some (0, sqDist q p) := by
  simp [nearestIn, distPairs, pickMinFrom, pickMinKey, List.range_succ]

theorem kthNearest_le_one (q : List ℚ) (pts : List (List ℚ)) (k : Nat)
    (hne : pts ≠ []) (hk : k ≤ 1) : kthNearest q pts k = nearestIn q pts := by
  rw [kthNearest, if_neg hne, if_pos hk]

theorem scorePoint_eq (st : FittedState) (q : List ℚ) (p k : Nat)
    (ci : ClassIndex) (sameNb : Nat × ℚ) (best : Nat × Nat × ℚ)
    (h1 : lookupClass st.indices p = some ci)
    (h2 : kthNearest q ci.points k = some sameNb)
    (h3 : otherArgmin q p st.indices = some best) :
    scorePoint st q p k = Except.ok
      (PointOut.mk (best.2.2 / (sameNb.2 + eps)) best.2.2 best.1 sameNb.1
        best.2.1) := by
  simp only [scorePoint, h1, h2, h3]

theorem otherArgmin_twoClass_eval :
    otherArgmin [0] 0 [ClassIndex.mk 0 [[0]], ClassIndex.mk 1 [[10]]] =
      some (1, 0, 100) := by
  have h : sqDist [(0 : ℚ)] [(10 : ℚ)] = 100 := by norm_num [sqDist]
  simp [otherArgmin, otherCands, pickMinFrom, pickMinKey, nearestIn_single, h]

theorem scorePoint_twoClass_eval :
    scorePoint (FittedState.mk 1 [ClassIndex.mk 0 [[0]], ClassIndex.mk 1 [[10]]])
        [0] 0 1 = Except.ok (PointOut.mk 100000000000000 100 1 0 0) := by
  have h00 : sqDist [(0 : ℚ)] [(0 : ℚ)] = 0 := by norm_num [sqDist]
  have h2 : kthNearest [(0 : ℚ)] [[(0 : ℚ)]] 1 = some (0, 0) := by
    rw [kthNearest_le_one _ _ _ (by simp) le_rfl, nearestIn_single, h00]
  have heq := scorePoint_eq
    (FittedState.mk 1 [ClassIndex.mk 0 [[0]], ClassIndex.mk 1 [[10]]])
    [0] 0 1 (ClassIndex.mk 0 [[0]]) (0, 0) (1, 0, 100) rfl h2
    otherArgmin_twoClass_eval
  rw [heq]
  norm_num [eps]

theorem scoreE_singleton (st : FittedState) (q : List ℚ) (p k' : Nat)
    (out : PointOut)
    (hdim : q.length = st.dim)
    (hp : (lookupClass st.indices p).isSome)
    (hsp : scorePoint st q p k' = Except.ok out) :
    scoreE (some st) [q] [p] k' = Except.ok (mkResult [out]) := by
  have h1 : ∀ x ∈ [q], x.length = st.dim := by
    intro x hx
    simp only [List.mem_singleton] at hx
    subst hx
    exact hdim
  have h2 : ∀ x ∈ [p], (lookupClass st.indices x).isSome := by
    intro x hx
    simp only [List.mem_singleton] at hx
    subst hx
    exact hp
  simp only [scoreE, if_pos h1, if_pos h2]
  have hz : ([q].zip [p]) = [(q, p)] := rfl
  rw [hz]
  simp only [exceptMapList, hsp]

theorem scoreE_twoClass_eval :
    scoreE (some (FittedState.mk 1
        [ClassIndex.mk 0 [[0]], ClassIndex.mk 1 [[10]]])) [[0]] [0] 1 =
      Except.ok (mkResult [PointOut.mk 100000000000000 100 1 0 0]) :=
  scoreE_singleton _ _ _ _ _ rfl rfl scorePoint_twoClass_eval

/-- C1: a successful `score` call on M query points returns exactly five
parallel ordered sequences of length M — the trust scores, the `d_other`
distances, the argmin labels `c*`, the positions of the same-class neighbours
used for `d_same`, and the positions of the `c*`-class neighbours used for
`d_other` (the fields of `ScoreResult`, which has no further components). -/
theorem score_outputs_shape (fitted : Option FittedState)
    (qs : List (List ℚ)) (ps : List Nat) (k : Nat) (r : ScoreResult)
    (hlen : ps.length = qs.length)
    (h : scoreE fitted qs ps k = Except.ok r) :
    r.trustScores.length = qs.length ∧ r.dOthers.length = qs.length ∧
    r.cStars.length = qs.length ∧ r.sameIdxs.length = qs.length ∧
    r.otherIdxs.length = qs.length := by
  cases fitted with
  | none =>
    rw [scoreE] at h
    cases h
  | some st =>
    rw [scoreE] at h
    by_cases h1 : ∀ q ∈ qs, q.length = st.dim
    · rw [if_pos h1] at h
      by_cases h2 : ∀ p ∈ ps, (lookupClass st.indices p).isSome
      · rw [if_pos h2] at h
        cases hml : exceptMapList (fun qp => scorePoint st qp.1 qp.2 k) (qs.zip ps) with
        | error e =>
          rw [hml] at h
          cases h
        | ok outs =>
          rw [hml] at h
          cases h
          have hlen2 := exceptMapList_length _ _ _ hml
          rw [List.length_zip, hlen] at hlen2
          simp only [min_self] at hlen2
          simp [mkResult, hlen2]
      · rw [if_neg h2] at h
        cases h
    · rw [if_neg h1] at h
      cases h

theorem score_outputs_shape_inst :
    (mkResult [PointOut.mk 100000000000000 100 1 0 0]).trustScores.length = 1 ∧
    (mkResult [PointOut.mk 100000000000000 100 1 0 0]).dOthers.length = 1 ∧
    (mkResult [PointOut.mk 100000000000000 100 1 0 0]).cStars.length = 1 ∧
    (mkResult [PointOut.mk 100000000000000 100 1 0 0]).sameIdxs.length = 1 ∧
    (mkResult [PointOut.mk 100000000000000 100 1 0 0]).otherIdxs.length = 1 :=
  score_outputs_shape
    (some (FittedState.mk 1 [ClassIndex.mk 0 [[0]], ClassIndex.mk 1 [[10]]]))
    [[0]] [0] 1 _ rfl scoreE_twoClass_eval

theorem fitE_ok_inv (cfg : TrustConfig) (aux : List Nat) (emb : List (List ℚ))
    (labels : List Nat) (classes : Option Nat) (st : FittedState)
    (h : fitE cfg aux emb labels classes = Except.ok st) :
    labels.length = emb.length ∧ (∀ e ∈ emb, e.length = fitDim emb) ∧
    st = FittedState.mk (fitDim emb) ((expectedLabels labels classes).map
      (fun c => ClassIndex.mk c (buildClassPoints cfg aux emb labels c))) ∧
    ∀ ci ∈ (expectedLabels labels classes).map
      (fun c => ClassIndex.mk c (buildClassPoints cfg aux emb labels c)),
      ci.points ≠ [] := by
  rw [fitE] at h
  by_cases h1 : labels.length = emb.length ∧ ∀ e ∈ emb, e.length = fitDim emb
  · rw [if_pos h1] at h
    by_cases h2 : ∃ ci ∈ (expectedLabels labels classes).map
        (fun c => ClassIndex.mk c (buildClassPoints cfg aux emb labels c)),
        ci.points = []
    · rw [if_pos h2] at h
      cases h
    · rw [if_neg h2] at h
      cases h
      push_neg at h2
      exact ⟨h1.1, h1.2, rfl, h2⟩
  · rw [if_neg h1] at h
    cases h

theorem le_maxLabel (labels : List Nat) : ∀ l ∈ labels, l ≤ maxLabel labels := by
  induction labels with
  | nil => intro l hl; cases hl
  | cons a t ih =>
    intro l hl
    rcases List.mem_cons.mp hl with h | h
    · subst h
      exact le_max_left _ _
    · exact le_trans (ih l h) (le_max_right _ _)

theorem mem_expectedLabels (labels : List Nat) (classes : Option Nat) (l : Nat)
    (hl : l ∈ labels) (hvalid : ∀ n, classes = some n → l < n) :
    l ∈ expectedLabels labels classes := by
  cases classes with
  | some n =>
    exact List.mem_range.mpr (hvalid n rfl)
  | none =>
    refine List.mem_filter.mpr ⟨?_, ?_⟩
    · exact List.mem_range.mpr (Nat.lt_succ_of_le (le_maxLabel labels l hl))
    · simp [hl]

/-- C7: after a successful `fit` every class label present in `labels` has a
non-empty `ClassIndex`, and with `alpha = 0` every class index retains exactly
as many points as that class had in the training input. -/
theorem fit_nonempty_classes (cfg : TrustConfig) (aux : List Nat)
    (emb : List (List ℚ)) (labels : List Nat) (classes : Option Nat)
    (st : FittedState)
    (hok : fitE cfg aux emb labels classes = Except.ok st)
    (hvalid : ∀ l ∈ labels, ∀ n, classes = some n → l < n) :
    (∀ l ∈ labels, ∃ ci ∈ st.indices, ci.label = l ∧ ci.points ≠ []) ∧
    (cfg.alpha = 0 → ∀ ci ∈ st.indices,
      ci.points.length = labels.count ci.label) := by
  obtain ⟨hlen, hdim, hst, hne⟩ := fitE_ok_inv cfg aux emb labels classes st hok
  subst hst
  constructor
  · intro l hl
    have hexp : l ∈ expectedLabels labels classes :=
      mem_expectedLabels labels classes l hl (hvalid l hl)
    have hmem : ClassIndex.mk l (buildClassPoints cfg aux emb labels l) ∈
        (expectedLabels labels classes).map
          (fun c => ClassIndex.mk c (buildClassPoints cfg aux emb labels c)) :=
      List.mem_map.mpr ⟨l, hexp, rfl⟩
    exact ⟨ClassIndex.mk l (buildClassPoints cfg aux emb labels l), hmem, rfl,
      hne _ hmem⟩
  · intro ha ci hci
    rcases List.mem_map.mp hci with ⟨c, hc, rfl⟩
    show (buildClassPoints cfg aux emb labels c).length = labels.count c
    rw [buildClassPoints, if_pos ha, classPoints, List.length_map, classMembers,
      idxOf_length]

theorem fit_nonempty_classes_inst :
    (∀ l ∈ [0, 1], ∃ ci ∈ (FittedState.mk 1
        [ClassIndex.mk 0 [[(0 : ℚ)]], ClassIndex.mk 1 [[1]]]).indices,
      ci.label = l ∧ ci.points ≠ []) ∧
    ((TrustConfig.mk 1 0 FilterMode.nofilter).alpha = 0 →
      ∀ ci ∈ (FittedState.mk 1
          [ClassIndex.mk 0 [[(0 : ℚ)]], ClassIndex.mk 1 [[1]]]).indices,
        ci.points.length = [0, 1].count ci.label) :=
  fit_nonempty_classes (TrustConfig.mk 1 0 FilterMode.nofilter) [] [[0], [1]]
    [0, 1] none _ rfl (by simp)

/-- C2: the returned trust score equals `d_other / (d_same + ε)` for the fixed
constant `ε > 0`, and when the query point coincides with a training point of
its predicted class (with `k = 1`) the same-class distance is `0` and the
score is still produced through the ε-stabilised division, with no division
error possible. -/
theorem trust_score_formula (st : FittedState) (q : List ℚ) (p k : Nat) :
    (∀ out, scorePoint st q p k = Except.ok out →
      out.trust = out.dOther / (dSameOf st q p k + eps) ∧ 0 < eps) ∧
    (k ≤ 1 → ∀ ci, lookupClass st.indices p = some ci → q ∈ ci.points →
      dSameOf st q p k = 0 ∧
      ((otherArgmin q p st.indices).isSome →
        ∃ out, scorePoint st q p k = Except.ok out)) := by
  constructor
  · intro out h
    cases h1 : lookupClass st.indices p with
    | none =>
      simp only [scorePoint, h1] at h
      cases h
    | some ci =>
      cases h2 : kthNearest q ci.points k with
      | none =>
        simp only [scorePoint, h1, h2] at h
        cases h
      | some sameNb =>
        cases h3 : otherArgmin q p st.indices with
        | none =>
          simp only [scorePoint, h1, h2, h3] at h
          cases h
        | some best =>
          rw [scorePoint_eq st q p k ci sameNb best h1 h2 h3] at h
          cases h
          refine ⟨?_, by norm_num [eps]⟩
          show best.2.2 / (sameNb.2 + eps) = best.2.2 / (dSameOf st q p k + eps)
          simp only [dSameOf, h1, h2]
  · intro hk ci h1 hmem
    have hne : ci.points ≠ [] := by
      intro hcon
      rw [hcon] at hmem
      cases hmem
    obtain ⟨pr, hpr⟩ := nearestIn_isSome q ci.points hne
    rcases pr with ⟨j, d⟩
    have hkth : kthNearest q ci.points k = some (j, d) := by
      rw [kthNearest_le_one _ _ _ hne hk]
      exact hpr
    obtain ⟨hjlt, hjd, hmin, -⟩ := nearestIn_spec q ci.points j d hpr
    obtain ⟨m, hm⟩ := List.mem_iff_get?.mp hmem
    have hmlt : m < ci.points.length := (List.get?_eq_some.mp hm).1
    have hgetD : ci.points.getD m [] = q := by
      show (ci.points.get? m).getD [] = q
      rw [hm]
      rfl
    have hd0 : d = 0 := by
      refine le_antisymm ?_ ?_
      · calc d ≤ sqDist q (ci.points.getD m []) := hmin m hmlt
        _ = 0 := by rw [hgetD, sqDist_self]
      · rw [hjd]
        exact sqDist_nonneg q _
    constructor
    · simp only [dSameOf, h1, hkth, hd0]
    · intro hsome
      obtain ⟨best, hbest⟩ := Option.isSome_iff_exists.mp hsome
      exact ⟨_, scorePoint_eq st q p k ci (j, d) best h1 hkth hbest⟩

theorem trust_score_formula_inst :
    ((PointOut.mk (100000000000000 : ℚ) 100 1 0 0).trust =
      (PointOut.mk (100000000000000 : ℚ) 100 1 0 0).dOther /
        (dSameOf (FittedState.mk 1
          [ClassIndex.mk 0 [[0]], ClassIndex.mk 1 [[10]]]) [0] 0 1 + eps) ∧
      0 < eps) ∧
    (dSameOf (FittedState.mk 1
        [ClassIndex.mk 0 [[0]], ClassIndex.mk 1 [[10]]]) [0] 0 1 = 0 ∧
      ((otherArgmin [0] 0 (FittedState.mk 1
          [ClassIndex.mk 0 [[0]], ClassIndex.mk 1 [[10]]]).indices).isSome →
        ∃ out, scorePoint (FittedState.mk 1
          [ClassIndex.mk 0 [[0]], ClassIndex.mk 1 [[10]]]) [0] 0 1 =
            Except.ok out)) :=
  ⟨(trust_score_formula (FittedState.mk 1
      [ClassIndex.mk 0 [[0]], ClassIndex.mk 1 [[10]]]) [0] 0 1).1
      (PointOut.mk 100000000000000 100 1 0 0) scorePoint_twoClass_eval,
   (trust_score_formula (FittedState.mk 1
      [ClassIndex.mk 0 [[0]], ClassIndex.mk 1 [[10]]]) [0] 0 1).2
      le_rfl (ClassIndex.mk 0 [[0]]) rfl (by simp)⟩

theorem leDP_trans (a b c : Nat × ℚ) (h1 : leDP a b = true)
    (h2 : leDP b c = true) : leDP a c = true := by
  simp only [leDP, decide_eq_true_eq] at *
  rcases h1 with h1 | ⟨h1e, h1i⟩ <;> rcases h2 with h2 | ⟨h2e, h2i⟩
  · exact Or.inl (lt_trans h1 h2)
  · exact Or.inl (h2e ▸ h1)
  · exact Or.inl (h1e ▸ h2)
  · exact Or.inr ⟨h1e.trans h2e, le_trans h1i h2i⟩

theorem leDP_total (a b : Nat × ℚ) : (leDP a b || leDP b a) = true := by
  simp only [leDP, Bool.or_eq_true, decide_eq_true_eq]
  rcases lt_trichotomy a.2 b.2 with h | h | h
  · exact Or.inl (Or.inl h)
  · rcases Nat.le_total a.1 b.1 with hi | hi
    · exact Or.inl (Or.inr ⟨h, hi⟩)
    · exact Or.inr (Or.inr ⟨h.symm, hi⟩)
  · exact Or.inr (Or.inl h)

theorem discardCount_half (n : Nat) : discardCount (1 / 2) n = n / 2 := by
  have h1 : ((1 : ℚ) / 2).num = 1 := by norm_num
  have h2 : ((1 : ℚ) / 2).den = 2 := by norm_num
  rw [discardCount, h1, h2]
  omega

theorem sortedDensityPairs_length (k : Nat) (pts : List (List ℚ)) :
    (sortedDensityPairs k pts).length = pts.length := by
  rw [sortedDensityPairs, List.length_mergeSort, densityPairs, List.length_map,
    List.length_range]

/-- C8: with `alpha = 1/2` and density filtering, every class index built by
`fit` keeps at most `⌈n/2⌉` of the class's `n` original points, its points are
the initial segment of the class's pairs sorted by k-th same-class neighbour
distance, every retained pair's distance is at most every discarded pair's
distance, and the sorted pairs are a permutation of the pairs of the whole
original class set. -/
theorem density_filtering_keeps_central (cfg : TrustConfig) (aux : List Nat)
    (emb : List (List ℚ)) (labels : List Nat) (classes : Option Nat)
    (st : FittedState) (ci : ClassIndex)
    (hok : fitE cfg aux emb labels classes = Except.ok st)
    (ha : cfg.alpha = 1 / 2) (hf : cfg.filtering = FilterMode.density)
    (hci : ci ∈ st.indices) :
    ci.points.length ≤ ((classPoints emb labels ci.label).length + 1) / 2 ∧
    ci.points =
      ((sortedDensityPairs cfg.k (classPoints emb labels ci.label)).take
        (keepCount (1 / 2) (classPoints emb labels ci.label).length)).map
        (fun pr => (classPoints emb labels ci.label).getD pr.1 []) ∧
    (∀ a ∈ (sortedDensityPairs cfg.k (classPoints emb labels ci.label)).take
        (keepCount (1 / 2) (classPoints emb labels ci.label).length),
      ∀ b ∈ (sortedDensityPairs cfg.k (classPoints emb labels ci.label)).drop
        (keepCount (1 / 2) (classPoints emb labels ci.label).length),
      a.2 ≤ b.2) ∧
    (sortedDensityPairs cfg.k (classPoints emb labels ci.label)).Perm
      (densityPairs cfg.k (classPoints emb labels ci.label)) := by
  obtain ⟨-, -, hst, -⟩ := fitE_ok_inv cfg aux emb labels classes st hok
  subst hst
  rcases List.mem_map.mp hci with ⟨c, hc, rfl⟩
  have hbcp : buildClassPoints cfg aux emb labels c =
      densityFilter cfg.k (1 / 2) (classPoints emb labels c) := by
    rw [buildClassPoints, if_neg (by rw [ha]; norm_num), hf, ha]
  refine ⟨?_, ?_, ?_, ?_⟩
  · show (buildClassPoints cfg aux emb labels c).length ≤ _
    rw [hbcp, densityFilter, List.length_map, List.length_take]
    calc keepCount (1 / 2) (classPoints emb labels c).length ⊓
        (sortedDensityPairs cfg.k (classPoints emb labels c)).length ≤
        keepCount (1 / 2) (classPoints emb labels c).length := inf_le_left
    _ ≤ ((classPoints emb labels c).length + 1) / 2 := by
      rw [keepCount, discardCount_half]
      omega
  · show buildClassPoints cfg aux emb labels c = _
    rw [hbcp]
    rfl
  · intro a hA b hB
    have hs : (sortedDensityPairs cfg.k (classPoints emb labels c)).Pairwise
        (fun x y => leDP x y = true) := by
      rw [sortedDensityPairs]
      exact List.sorted_mergeSort leDP_trans leDP_total _
    have hsplit := List.take_append_drop
      (keepCount (1 / 2) (classPoints emb labels c).length)
      (sortedDensityPairs cfg.k (classPoints emb labels c))
    rw [← hsplit] at hs
    have hpw := (List.pairwise_append.mp hs).2.2 a hA b hB
    simp only [leDP, decide_eq_true_eq] at hpw
    rcases hpw with h | ⟨he, -⟩
    · exact le_of_lt h
    · exact le_of_eq he
  · rw [sortedDensityPairs]
    exact List.mergeSort_perm _ _

theorem densityFilter_singleton (p : List ℚ) :
    densityFilter 1 (1 / 2) [p] = [p] := by
  have h1 : sortedDensityPairs 1 [p] = [(0, kthSelfDist 1 [p] 0)] := by
    rw [sortedDensityPairs]
    rw [show densityPairs 1 [p] = [(0, kthSelfDist 1 [p] 0)] from rfl]
    exact List.mergeSort_singleton _
  have hk : keepCount (1 / 2) ([p] : List (List ℚ)).length = 1 := by
    rw [keepCount, discardCount_half]
    simp
  rw [densityFilter, h1, hk]
  rfl

theorem fitE_density_eval :
    fitE (TrustConfig.mk 1 (1 / 2) FilterMode.density) [] [[0], [1]] [0, 1]
        none =
      Except.ok (FittedState.mk 1
        [ClassIndex.mk 0 [[0]], ClassIndex.mk 1 [[1]]]) := by
  have hb0 : buildClassPoints (TrustConfig.mk 1 (1 / 2) FilterMode.density)
      [] [[0], [1]] [0, 1] 0 = [[(0 : ℚ)]] := by
    rw [buildClassPoints, if_neg (by norm_num)]
    show densityFilter 1 (1 / 2) (classPoints [[0], [1]] [0, 1] 0) = [[(0 : ℚ)]]
    rw [show classPoints [[0], [1]] [0, 1] 0 = [[(0 : ℚ)]] from rfl]
    exact densityFilter_singleton _
  have hb1 : buildClassPoints (TrustConfig.mk 1 (1 / 2) FilterMode.density)
      [] [[0], [1]] [0, 1] 1 = [[(1 : ℚ)]] := by
    rw [buildClassPoints, if_neg (by norm_num)]
    show densityFilter 1 (1 / 2) (classPoints [[0], [1]] [0, 1] 1) = [[(1 : ℚ)]]
    rw [show classPoints [[0], [1]] [0, 1] 1 = [[(1 : ℚ)]] from rfl]
    exact densityFilter_singleton _
  rw [fitE, if_pos (by constructor <;> decide)]
  simp only [show expectedLabels [0, 1] none = [0, 1] from rfl, List.map_cons,
    List.map_nil, hb0, hb1]
  rw [if_neg (by simp)]
  rfl

theorem density_filtering_keeps_central_inst :
    ([[(0 : ℚ)]] : List (List ℚ)).length ≤
      ((classPoints [[0], [1]] [0, 1] 0).length + 1) / 2 ∧
    ([[(0 : ℚ)]] : List (List ℚ)) =
      ((sortedDensityPairs 1 (classPoints [[0], [1]] [0, 1] 0)).take
        (keepCount (1 / 2) (classPoints [[0], [1]] [0, 1] 0).length)).map
        (fun pr => (classPoints [[0], [1]] [0, 1] 0).getD pr.1 []) ∧
    (∀ a ∈ (sortedDensityPairs 1 (classPoints [[0], [1]] [0, 1] 0)).take
        (keepCount (1 / 2) (classPoints [[0], [1]] [0, 1] 0).length),
      ∀ b ∈ (sortedDensityPairs 1 (classPoints [[0], [1]] [0, 1] 0)).drop
        (keepCount (1 / 2) (classPoints [[0], [1]] [0, 1] 0).length),
      a.2 ≤ b.2) ∧
    (sortedDensityPairs 1 (classPoints [[0], [1]] [0, 1] 0)).Perm
      (densityPairs 1 (classPoints [[0], [1]] [0, 1] 0)) :=
  density_filtering_keeps_central (TrustConfig.mk 1 (1 / 2) FilterMode.density)
    [] [[0], [1]] [0, 1] none _ (ClassIndex.mk 0 [[0]]) fitE_density_eval rfl
    rfl (List.mem_cons_self _ _)

theorem mem_otherCands (q : List ℚ) (p : Nat) (indices : List ClassIndex)
    (t : Nat × Nat × ℚ) :
    t ∈ otherCands q p indices ↔ ∃ ci ∈ indices, ci.label ≠ p ∧
      ci.label = t.1 ∧ nearestIn q ci.points = some (t.2.1, t.2.2) := by
  rw [otherCands, List.mem_filterMap]
  constructor
  · rintro ⟨ci, hci, heq⟩
    by_cases hl : ci.label = p
    · rw [if_pos hl] at heq
      cases heq
    · rw [if_neg hl] at heq
      cases hn : nearestIn q ci.points with
      | none =>
        rw [hn] at heq
        cases heq
      | some pr =>
        rw [hn] at heq
        simp only [Option.map_some'] at heq
        cases heq
        exact ⟨ci, hci, hl, rfl, by rw [hn]⟩
  · rintro ⟨ci, hci, hl, hlt, hn⟩
    refine ⟨ci, hci, ?_⟩
    rw [if_neg hl, hn]
    simp only [Option.map_some']
    rw [hlt]

theorem otherCands_pairwise (q : List ℚ) (p : Nat) (indices : List ClassIndex)
    (hp : indices.Pairwise (fun a b => a.label < b.label)) :
    (otherCands q p indices).Pairwise (fun x y => x.1 < y.1) := by
  rw [otherCands, List.pairwise_filterMap]
  refine hp.imp ?_
  intro a b hab x hx y hy
  have hxa : x.1 = a.label := by
    by_cases h : a.label = p
    · rw [if_pos h] at hx
      cases hx
    · rw [if_neg h] at hx
      cases hn : nearestIn q a.points with
      | none =>
        rw [hn] at hx
        cases hx
      | some pr =>
        rw [hn] at hx
        simp only [Option.map_some', Option.mem_def, Option.some.injEq] at hx
        rw [← hx]
  have hyb : y.1 = b.label := by
    by_cases h : b.label = p
    · rw [if_pos h] at hy
      cases hy
    · rw [if_neg h] at hy
      cases hn : nearestIn q b.points with
      | none =>
        rw [hn] at hy
        cases hy
      | some pr =>
        rw [hn] at hy
        simp only [Option.map_some', Option.mem_def, Option.some.injEq] at hy
        rw [← hy]
  rw [hxa, hyb]
  exact hab

theorem pairwise_label_unique (indices : List ClassIndex)
    (hp : indices.Pairwise (fun a b => a.label < b.label)) :
    ∀ ci ∈ indices, ∀ cj ∈ indices, ci.label = cj.label → ci = cj := by
  induction indices with
  | nil =>
    intro ci hci
    cases hci
  | cons a t ih =>
    rw [List.pairwise_cons] at hp
    obtain ⟨ha, ht⟩ := hp
    intro ci hci cj hcj heq
    rcases List.mem_cons.mp hci with h | h <;> rcases List.mem_cons.mp hcj with h' | h'
    · rw [h, h']
    · exfalso
      rw [h] at heq
      exact lt_irrefl _ (heq ▸ ha cj h')
    · exfalso
      rw [h'] at heq
      exact lt_irrefl _ (heq ▸ ha ci h)
    · exact ih ht ci h cj h' heq

/-- C3: for a query with predicted label `p`, `score` computes for every
other class with a non-empty index the distance to its nearest point;
`d_other` is the minimum of those distances, `c*` is the argmin label together
with the position of that nearest point inside its class, and equidistant ties
are broken by the lowest class label and then the lowest position within the
class. -/
theorem d_other_argmin_tiebreak (st : FittedState) (q : List ℚ) (p k : Nat)
    (out : PointOut)
    (hsorted : st.indices.Pairwise (fun a b => a.label < b.label))
    (hok : scorePoint st q p k = Except.ok out) :
    (∀ ci ∈ st.indices, ∀ j d, nearestIn q ci.points = some (j, d) →
      (∀ m, m < ci.points.length → d ≤ sqDist q (ci.points.getD m [])) ∧
      (∀ m, m < ci.points.length → sqDist q (ci.points.getD m []) = d →
        j ≤ m)) ∧
    (∀ ci ∈ st.indices, ci.label ≠ p → ∀ j d,
      nearestIn q ci.points = some (j, d) → out.dOther ≤ d) ∧
    (∃ ci ∈ st.indices, ci.label = out.cstar ∧ ci.label ≠ p ∧
      nearestIn q ci.points = some (out.otherIdx, out.dOther)) ∧
    (∀ ci ∈ st.indices, ci.label ≠ p → ∀ j d,
      nearestIn q ci.points = some (j, d) → d = out.dOther →
      out.cstar ≤ ci.label) ∧
    (∀ ci ∈ st.indices, ci.label = out.cstar → ∀ m, m < ci.points.length →
      sqDist q (ci.points.getD m []) = out.dOther → out.otherIdx ≤ m) := by
  cases h1 : lookupClass st.indices p with
  | none =>
    simp only [scorePoint, h1] at hok
    cases hok
  | some ci₀ =>
    cases h2 : kthNearest q ci₀.points k with
    | none =>
      simp only [scorePoint, h1, h2] at hok
      cases hok
    | some sameNb =>
      cases h3 : otherArgmin q p st.indices with
      | none =>
        simp only [scorePoint, h1, h2, h3] at hok
        cases hok
      | some best =>
        rw [scorePoint_eq st q p k ci₀ sameNb best h1 h2 h3] at hok
        cases hok
        rw [otherArgmin] at h3
        obtain ⟨hmem, hle, htie⟩ := pickMinFrom_spec (fun t => t.2.2)
          (fun t => t.1) (otherCands q p st.indices) best
          (otherCands_pairwise q p st.indices hsorted) h3
        obtain ⟨cw, hcw, hcwp, hcwl, hcwn⟩ := (mem_otherCands q p st.indices best).mp hmem
        refine ⟨?_, ?_, ?_, ?_, ?_⟩
        · intro ci hci j d hn
          obtain ⟨-, -, hmin, htieIn⟩ := nearestIn_spec q ci.points j d hn
          exact ⟨hmin, htieIn⟩
        · intro ci hci hlp j d hn
          exact hle (ci.label, j, d)
            ((mem_otherCands q p st.indices (ci.label, j, d)).mpr
              ⟨ci, hci, hlp, rfl, hn⟩)
        · exact ⟨cw, hcw, hcwl, hcwp, hcwn⟩
        · intro ci hci hlp j d hn hd
          exact htie (ci.label, j, d)
            ((mem_otherCands q p st.indices (ci.label, j, d)).mpr
              ⟨ci, hci, hlp, rfl, hn⟩) hd
        · intro ci hci hlab m hm hsq
          have hci_cw : ci = cw :=
            pairwise_label_unique st.indices hsorted ci hci cw hcw
              (by rw [hlab, hcwl])
          subst hci_cw
          obtain ⟨-, -, -, htieIn⟩ := nearestIn_spec q ci.points best.2.1
            best.2.2 hcwn
          exact htieIn m hm hsq

theorem d_other_argmin_tiebreak_inst :
    (∀ ci ∈ [ClassIndex.mk 0 [[(0 : ℚ)]], ClassIndex.mk 1 [[10]]],
      ∀ j d, nearestIn [0] ci.points = some (j, d) →
      (∀ m, m < ci.points.length → d ≤ sqDist [0] (ci.points.getD m [])) ∧
      (∀ m, m < ci.points.length → sqDist [0] (ci.points.getD m []) = d →
        j ≤ m)) ∧
    (∀ ci ∈ [ClassIndex.mk 0 [[(0 : ℚ)]], ClassIndex.mk 1 [[10]]],
      ci.label ≠ 0 → ∀ j d, nearestIn [0] ci.points = some (j, d) →
      (100 : ℚ) ≤ d) ∧
    (∃ ci ∈ [ClassIndex.mk 0 [[(0 : ℚ)]], ClassIndex.mk 1 [[10]]],
      ci.label = 1 ∧ ci.label ≠ 0 ∧
      nearestIn [0] ci.points = some (0, 100)) ∧
    (∀ ci ∈ [ClassIndex.mk 0 [[(0 : ℚ)]], ClassIndex.mk 1 [[10]]],
      ci.label ≠ 0 → ∀ j d, nearestIn [0] ci.points = some (j, d) →
      d = 100 → 1 ≤ ci.label) ∧
    (∀ ci ∈ [ClassIndex.mk 0 [[(0 : ℚ)]], ClassIndex.mk 1 [[10]]],
      ci.label = 1 → ∀ m, m < ci.points.length →
      sqDist [0] (ci.points.getD m []) = 100 → 0 ≤ m) :=
  d_other_argmin_tiebreak
    (FittedState.mk 1 [ClassIndex.mk 0 [[0]], ClassIndex.mk 1 [[10]]])
    [0] 0 1 (PointOut.mk 100000000000000 100 1 0 0) (by decide)
    scorePoint_twoClass_eval
